import Mathlib

/-!
Shallow embedding of the TLV codec of `qris_editor.py`: the parse loop of
`QRISParser._parse`, the nested sub-field loops of the `nmid`, `acquiring_id`
and `terminal_id` accessors, the summary view `get_info` (with the non-empty
filter applied by `display_info`), the rebuild loop `QRISEditor.build`, the
checksum engine `_calculate_checksum`, and the validator
`QRCodeHandler.validate_qris`.  Strings are modelled as `List Char`; Python's
`int()` on the 2-character length slice is modelled for ASCII text, where it
succeeds exactly on two decimal digits.
-/

set_option maxRecDepth 16384

def chars (s : String) : List Char := s.data

/-- ASCII decimal digit test, used to model the `int()` call on a length slice. -/
def isDig (c : Char) : Bool := 48 ≤ c.toNat && c.toNat ≤ 57

def digitVal (c : Char) : Nat := c.toNat - 48

def digitChar (d : Nat) : Char := Char.ofNat (48 + d)

/-- Model of Python `int(s)` for the 2-character length slices of the decoder,
restricted to ASCII text: it yields a value exactly when both characters are
decimal digits (sign- or space-padded forms do not occur in QR payload text). -/
def int2 : List Char → Option Nat
  | [c1, c2] => if isDig c1 && isDig c2 then some (10 * digitVal c1 + digitVal c2) else none
  | _ => none

/-- Model of the f-string field `{length:02d}` of `build`.  The build loop only
formats lengths that already passed its `length > max_len` check, and every
per-tag maximum is at most 99, so two digits always suffice. -/
def fmt02 (n : Nat) : List Char := [digitChar (n / 10), digitChar (n % 10)]

/-- Python slice `data[a:b]` for the non-negative indices used by the codec. -/
def pySlice (data : List Char) (a b : Nat) : List Char := (data.drop a).take (b - a)

/-- Python `str.strip` whitespace class, for the ASCII range. -/
def isPySpace (c : Char) : Bool :=
  c == ' ' || c == '\t' || c == '\n' || c == '\r' || c == '\x0b' || c == '\x0c'

/-- Python `str.strip()` as applied to the constructor argument of
`QRISParser` and `QRISEditor`. -/
def pyStrip (s : List Char) : List Char :=
  ((s.dropWhile isPySpace).reverse.dropWhile isPySpace).reverse

/-- One decoded TLV field: the entry `{tag, length, value}` the parser stores
in its `data` mapping (the derived `name` entry is presentation only). -/
structure TLVField where
  tag : List Char
  length : Nat
  value : List Char
deriving DecidableEq, Repr

/-- The loop of `QRISParser._parse`.  `acc` is the sequence of decoded
occurrences in stream order; the Python `dict` semantics (later occurrence of
a tag overwrites the earlier one) is recovered by `dataLookup`, which returns
the last occurrence of a tag. -/
def parseFrom (data : List Char) (pos : Nat) (acc : List TLVField) : List TLVField :=
  if h : pos < data.length then
    if pos + 4 > data.length then acc
    else
      match int2 (pySlice data (pos + 2) (pos + 4)) with
      | none => acc
      | some len0 =>
        parseFrom data (pos + 4 + len0)
          (acc ++ [⟨pySlice data pos (pos + 2), len0, pySlice data (pos + 4) (pos + 4 + len0)⟩])
  else acc
termination_by data.length - pos
decreasing_by omega

/-- The decoded occurrence list of a raw stream, in stream order. -/
def occurrences (data : List Char) : List TLVField := parseFrom data 0 []

/-- The nested sub-field loop shared by the `nmid`, `acquiring_id` and
`terminal_id` accessors: scan `data` with the same TLV step and return the
value of the first sub-tag equal to `target`. -/
def findSub (data : List Char) (target : List Char) (pos : Nat) : Option (List Char) :=
  if h : pos < data.length then
    if pos + 4 > data.length then none
    else
      match int2 (pySlice data (pos + 2) (pos + 4)) with
      | none => none
      | some len0 =>
        if pySlice data pos (pos + 2) = target then some (pySlice data (pos + 4) (pos + 4 + len0))
        else findSub data target (pos + 4 + len0)
  else none
termination_by data.length - pos
decreasing_by omega

/-- Lookup in the parsed document: Python's `self.data.get(t)`, i.e. the last
decoded occurrence of tag `t` (dict assignment overwrites). -/
def dataLookup (doc : List TLVField) (t : List Char) : Option TLVField :=
  doc.reverse.find? (fun f => f.tag == t)

/-- Python's `self.data.get(t, {}).get('value', '')`. -/
def getValue (doc : List TLVField) (t : List Char) : List Char :=
  ((dataLookup doc t).map TLVField.value).getD []

def merchant_name (doc : List TLVField) : List Char := getValue doc (chars "59")

def merchant_city (doc : List TLVField) : List Char := getValue doc (chars "60")

def postal_code (doc : List TLVField) : List Char := getValue doc (chars "61")

def checksum (doc : List TLVField) : List Char := getValue doc (chars "63")

/-- The `nmid` accessor: tag "51" container (falling back to "26" when empty),
scanned for sub-tag "02". -/
def nmid (doc : List TLVField) : List Char :=
  let v51 := getValue doc (chars "51")
  let v := if v51.isEmpty then getValue doc (chars "26") else v51
  (findSub v (chars "02") 0).getD []

/-- The `acquiring_id` accessor: tag "26" container (falling back to "51" when
empty), scanned for sub-tag "01", the result truncated with
`subvalue[:8] if len(subvalue) >= 8 else subvalue`. -/
def acquiring_id (doc : List TLVField) : List Char :=
  let v26 := getValue doc (chars "26")
  let v := if v26.isEmpty then getValue doc (chars "51") else v26
  match findSub v (chars "01") 0 with
  | some s => if 8 ≤ s.length then s.take 8 else s
  | none => []

/-- The `terminal_id` accessor: tag "62" container scanned for sub-tag "07". -/
def terminal_id (doc : List TLVField) : List Char :=
  (findSub (getValue doc (chars "62")) (chars "07") 0).getD []

/-- The ordered label-to-value mapping returned by `get_info`. -/
def get_info (doc : List TLVField) : List (List Char × List Char) :=
  [(chars "Merchant Name", merchant_name doc),
   (chars "Merchant City", merchant_city doc),
   (chars "NMID", nmid doc),
   (chars "Terminal ID", terminal_id doc),
   (chars "Acquiring ID", acquiring_id doc),
   (chars "Country Code", getValue doc (chars "58")),
   (chars "Postal Code", getValue doc (chars "61")),
   (chars "Merchant Category", getValue doc (chars "52")),
   (chars "Currency", getValue doc (chars "53")),
   (chars "Checksum", checksum doc)]

/-- The entries `display_info` actually presents: it iterates `get_info` and
prints a line only when the value is truthy, i.e. non-empty. -/
def displayedInfo (doc : List TLVField) : List (List Char × List Char) :=
  (get_info doc).filter (fun p => !(p.2.isEmpty))

/-- UTF-8 encoding of one character, as `str.encode()` produces it. -/
def utf8Bytes (c : Char) : List Nat :=
  let n := c.toNat
  if n < 128 then [n]
  else if n < 2048 then [192 + n / 64, 128 + n % 64]
  else if n < 65536 then [224 + n / 4096, 128 + n / 64 % 64, 128 + n % 64]
  else [240 + n / 262144, 128 + n / 4096 % 64, 128 + n / 64 % 64, 128 + n % 64]

def utf8Encode (s : List Char) : List Nat := (s.map utf8Bytes).flatten

/-- Modelled from the spec: one shift step of the CRC-16/CCITT-FALSE register
(polynomial 0x1021, width 16), as implemented by the third-party `crc`
library's `Crc16.IBM_3740` configuration, which is not part of this
repository's sources. -/
def crcStep (c : Nat) : Nat :=
  if 32768 ≤ c % 65536 then ((c % 65536) * 2 ^^^ 4129) % 65536 else ((c % 65536) * 2) % 65536

/-- Modelled from the spec: folding one input byte into the CRC register
(xor into the high byte, then eight shift steps; no reflection). -/
def crcByte (c b : Nat) : Nat :=
  (List.range 8).foldl (fun acc _ => crcStep acc) ((c ^^^ b % 256 * 256) % 65536)

/-- Modelled from the spec: CRC-16/CCITT-FALSE over a byte sequence, initial
value 0xFFFF, no output reflection, no final xor. -/
def crc16 (bs : List Nat) : Nat := bs.foldl crcByte 65535

def hexDigit (d : Nat) : Char :=
  if d < 10 then Char.ofNat (48 + d) else Char.ofNat (55 + d)

/-- Python `format(n, '04X')` for `n < 65536` (the CRC register is always
reduced modulo 2^16, so four digits always suffice). -/
def hex4 (n : Nat) : List Char :=
  [hexDigit (n / 4096 % 16), hexDigit (n / 256 % 16), hexDigit (n / 16 % 16), hexDigit (n % 16)]

/-- The checksum engine `_calculate_checksum`: CRC-16/CCITT-FALSE over the
UTF-8 bytes, rendered as 4 uppercase zero-padded hex digits. -/
def calculate_checksum (s : List Char) : List Char := hex4 (crc16 (utf8Encode s))

/-- Python substring test `pat in s`. -/
def containsSub (s pat : List Char) : Bool :=
  (List.range (s.length + 1)).any (fun i => pat.isPrefixOf (s.drop i))

/-- Python `s.rfind(pat)`: the largest index where `pat` occurs, `none` for -1. -/
def pyRFind (s pat : List Char) : Option Nat :=
  ((List.range (s.length + 1)).filter (fun i => pat.isPrefixOf (s.drop i))).getLast?

def reasonShort : List Char := chars "Data terlalu pendek untuk QRIS valid"

def reasonFormat : List Char := chars "Bukan format QRIS (tidak dimulai dengan 000201)"

def reasonNoChecksum : List Char := chars "Tidak ditemukan checksum (Tag 63)"

def reasonCkFormat : List Char := chars "Format checksum tidak valid"

def reasonMismatch (ckExp got : List Char) : List Char :=
  chars "Checksum tidak valid (expected: " ++ ckExp ++ chars ", got: " ++ got ++ chars ")"

def reasonNoName : List Char := chars "Tidak ditemukan nama merchant (Tag 59)"

def reasonValid : List Char := chars "QRIS valid"

/-- The expected checksum the validator computes at boundary `p`:
CRC over `data[:p+4]`, i.e. everything up to and including the "6304" header. -/
def calcAt (data : List Char) (p : Nat) : List Char := calculate_checksum (data.take (p + 4))

/-- The checksum read from the payload at boundary `p`: `data[p+4:p+8].upper()`. -/
def upperGot (data : List Char) (p : Nat) : List Char :=
  (pySlice data (p + 4) (p + 8)).map Char.toUpper

/-- `QRCodeHandler.validate_qris`, check for check in source order. -/
def validate (data : List Char) : Bool × List Char :=
  if data.length < 50 then (false, reasonShort)
  else if !((chars "000201").isPrefixOf data) then (false, reasonFormat)
  else if !(containsSub data (chars "6304")) then (false, reasonNoChecksum)
  else
    match pyRFind data (chars "6304") with
    | none => (false, reasonCkFormat)
    | some p =>
      if data.length < p + 8 then (false, reasonCkFormat)
      else if upperGot data p ≠ calcAt data p then
        (false, reasonMismatch (calcAt data p) (upperGot data p))
      else if !(containsSub data (chars "59")) then (false, reasonNoName)
      else (true, reasonValid)

/-- The data carried by the `ValueError` that `build` raises on a length
violation: the offending tag, its actual length and the allowed maximum. -/
structure BuildError where
  tag : List Char
  length : Nat
  max : Nat
deriving DecidableEq, Repr

/-- The per-tag maximum `{'59': 25, '60': 15, '61': 5}.get(tag, 99)`. -/
def maxLen (t : List Char) : Nat :=
  if t = chars "59" then 25 else if t = chars "60" then 15 else if t = chars "61" then 5 else 99

/-- Lookup in the `modifications` dict (an association list here; the last
assignment to a key wins, as in a Python dict). -/
def ovLookup (mods : List (List Char × List Char)) (t : List Char) : Option (List Char) :=
  mods.reverse.lookup t

/-- `set_merchant_name`: a no-op on an empty value, otherwise assigns tag "59". -/
def set_merchant_name (mods : List (List Char × List Char)) (name : List Char) :
    List (List Char × List Char) :=
  if name.isEmpty then mods else mods ++ [(chars "59", name)]

/-- `set_merchant_city`: a no-op on an empty value, otherwise assigns tag "60". -/
def set_merchant_city (mods : List (List Char × List Char)) (city : List Char) :
    List (List Char × List Char) :=
  if city.isEmpty then mods else mods ++ [(chars "60", city)]

/-- `set_postal_code`: a no-op on an empty value, otherwise assigns tag "61". -/
def set_postal_code (mods : List (List Char × List Char)) (pc : List Char) :
    List (List Char × List Char) :=
  if pc.isEmpty then mods else mods ++ [(chars "61", pc)]

/-- The field length after the override substitution of `build`
(`length = len(value)` when the tag is overridden). -/
def substLen (mods : List (List Char × List Char)) (f : TLVField) : Nat :=
  match ovLookup mods f.tag with
  | some v => v.length
  | none => f.length

/-- The field value after the override substitution of `build`. -/
def substVal (mods : List (List Char × List Char)) (f : TLVField) : List Char :=
  match ovLookup mods f.tag with
  | some v => v
  | none => f.value

/-- Per-field processing of `build`, expressed over the decoded occurrence
list: skip the checksum tag, substitute overrides, enforce the per-tag
maximum, and emit `tag + 2-digit length + value`. -/
def processFields : List TLVField → List (List Char × List Char) → List Char →
    Except BuildError (List Char)
  | [], _, acc => .ok acc
  | f :: fs, mods, acc =>
    if f.tag = chars "63" then processFields fs mods acc
    else
      if maxLen f.tag < substLen mods f then .error ⟨f.tag, substLen mods f, maxLen f.tag⟩
      else processFields fs mods (acc ++ f.tag ++ fmt02 (substLen mods f) ++ substVal mods f)

/-- The loop of `QRISEditor.build`.  The cursor advance re-reads the original
length slice (`pos += 4 + int(data[pos+2:pos+4])`), which is `len0` here; an
override changes only the emitted length and value. -/
def buildLoop (data : List Char) (mods : List (List Char × List Char)) (pos : Nat)
    (acc : List Char) : Except BuildError (List Char) :=
  if h : pos < data.length then
    if pos + 4 > data.length then .ok acc
    else
      match int2 (pySlice data (pos + 2) (pos + 4)) with
      | none => .ok acc
      | some len0 =>
        if pySlice data pos (pos + 2) = chars "63" then buildLoop data mods (pos + 4 + len0) acc
        else
          let lv : Nat × List Char :=
            match ovLookup mods (pySlice data pos (pos + 2)) with
            | some v => (v.length, v)
            | none => (len0, pySlice data (pos + 4) (pos + 4 + len0))
          if maxLen (pySlice data pos (pos + 2)) < lv.1 then
            .error ⟨pySlice data pos (pos + 2), lv.1, maxLen (pySlice data pos (pos + 2))⟩
          else
            buildLoop data mods (pos + 4 + len0)
              (acc ++ pySlice data pos (pos + 2) ++ fmt02 lv.1 ++ lv.2)
  else .ok acc
termination_by data.length - pos
decreasing_by all_goals omega

/-- `QRISEditor.build()`: strip the constructor argument, run the rebuild
loop, append the literal "6304" header and the freshly computed checksum. -/
def buildQris (raw : List Char) (mods : List (List Char × List Char)) :
    Except BuildError (List Char) :=
  match buildLoop (pyStrip raw) mods 0 [] with
  | .error e => .error e
  | .ok body => .ok (body ++ chars "6304" ++ calculate_checksum (body ++ chars "6304"))

/-- Canonical serialization of one field, `tag + 2-digit length + value`. -/
def serializeField (f : TLVField) : List Char := f.tag ++ fmt02 f.length ++ f.value

def serializeAll (fs : List TLVField) : List Char := (fs.map serializeField).flatten

/-- A field whose serialization decodes back to itself: a 2-character tag, a
length below 100 and a value of exactly that length. -/
def goodField (f : TLVField) : Prop :=
  f.tag.length = 2 ∧ f.value.length = f.length ∧ f.length ≤ 99

instance : DecidablePred goodField := fun f => by unfold goodField; infer_instance

/-- A field of a canonical payload: well-formed, not the checksum tag, within
its per-tag maximum, with an ASCII-digit tag. -/
def canonField (f : TLVField) : Prop :=
  goodField f ∧ f.tag ≠ chars "63" ∧ f.length ≤ maxLen f.tag ∧ ∀ c ∈ f.tag, isDig c = true

instance : DecidablePred canonField := fun f => by unfold canonField; infer_instance

/-- Concrete canonical field list used by witness payloads. -/
def fsP0 : List TLVField :=
  [⟨chars "00", 2, chars "01"⟩, ⟨chars "59", 4, chars "NAME"⟩,
   ⟨chars "52", 30, chars "ABCDEFGHIJKLMNOPQRSTUVWXYZ0123"⟩]

def bodyP0 : List Char := serializeAll fsP0 ++ chars "6304"

/-- A canonical, validator-accepted payload with a correct checksum. -/
def P0 : List Char := bodyP0 ++ calculate_checksum bodyP0

/-- `P0` with one character of trailing garbage after the checksum. -/
def P0junk : List Char := P0 ++ [Char.ofNat 122]

/-- The decoded occurrence list of `P0`: its canonical fields plus the
checksum field. -/
def fs63P0 : List TLVField := fsP0 ++ [⟨chars "63", 4, chars "2C91"⟩]

/-- A one-field canonical payload body used as a round-trip witness. -/
def fsW : List TLVField := [⟨chars "00", 2, chars "01"⟩]

theorem digit_lemma (d : Nat) (h : d < 10) :
    isDig (digitChar d) = true ∧ digitVal (digitChar d) = d := by
  interval_cases d <;> exact ⟨by decide, by decide⟩

theorem fmt02_int2 (n : Nat) (h : n ≤ 99) : int2 (fmt02 n) = some n := by
  have h1 := digit_lemma (n / 10) (by omega)
  have h2 := digit_lemma (n % 10) (Nat.mod_lt _ (by norm_num))
  simp only [fmt02, int2, h1.1, h2.1, Bool.and_self, if_pos, h1.2, h2.2]
  congr 1
  omega

theorem int2_le (s : List Char) (n : Nat) (h : int2 s = some n) : n ≤ 99 := by
  unfold int2 at h
  split at h
  next c1 c2 =>
    by_cases hd : (isDig c1 && isDig c2) = true
    · rw [if_pos hd] at h
      obtain ⟨hd1, hd2⟩ := Bool.and_eq_true_iff.mp hd
      simp only [isDig, Bool.and_eq_true, decide_eq_true_eq] at hd1 hd2
      simp only [Option.some.injEq] at h
      unfold digitVal at h
      omega
    · rw [if_neg hd] at h
      exact absurd h (by simp)
  next => exact absurd h (by simp)

theorem pySlice_drop (data : List Char) (pos a b : Nat) :
    pySlice (data.drop pos) a b = pySlice data (pos + a) (pos + b) := by
  unfold pySlice
  rw [List.drop_drop]
  have h2 : pos + b - (pos + a) = b - a := by omega
  rw [h2]

theorem take_len_append (xs ys : List Char) (n : Nat) (h : xs.length = n) :
    (xs ++ ys).take n = xs := by
  subst h; exact List.take_left xs ys

theorem drop_len_append (xs ys : List Char) (n : Nat) (h : xs.length = n) :
    (xs ++ ys).drop n = ys := by
  subst h; exact List.drop_left xs ys

theorem parseFrom_stop (data : List Char) (pos : Nat) (acc : List TLVField)
    (h : data.length < pos + 4) : parseFrom data pos acc = acc := by
  rw [parseFrom]
  by_cases h1 : pos < data.length
  · rw [dif_pos h1, if_pos (by omega)]
  · rw [dif_neg h1]

theorem parseFrom_malformed (data : List Char) (pos : Nat) (acc : List TLVField)
    (h1 : pos + 4 ≤ data.length) (h2 : int2 (pySlice data (pos + 2) (pos + 4)) = none) :
    parseFrom data pos acc = acc := by
  rw [parseFrom, dif_pos (by omega), if_neg (by omega), h2]

theorem parseFrom_step (data : List Char) (pos : Nat) (acc : List TLVField) (len0 : Nat)
    (h1 : pos + 4 ≤ data.length) (h2 : int2 (pySlice data (pos + 2) (pos + 4)) = some len0) :
    parseFrom data pos acc = parseFrom data (pos + 4 + len0)
      (acc ++ [⟨pySlice data pos (pos + 2), len0, pySlice data (pos + 4) (pos + 4 + len0)⟩]) := by
  rw [parseFrom, dif_pos (by omega), if_neg (by omega), h2]

theorem parseFrom_shift (data : List Char) (pos : Nat) (acc : List TLVField) :
    parseFrom data pos acc = parseFrom (data.drop pos) 0 acc := by
  by_cases h : pos < data.length
  · by_cases h4 : pos + 4 > data.length
    · rw [parseFrom_stop data pos acc (by omega),
          parseFrom_stop _ 0 acc (by simp only [List.length_drop]; omega)]
    · cases hint : int2 (pySlice data (pos + 2) (pos + 4)) with
      | none =>
        rw [parseFrom_malformed data pos acc (by omega) hint,
            parseFrom_malformed (data.drop pos) 0 acc (by simp only [List.length_drop]; omega)
              (by rw [pySlice_drop]; exact hint)]
      | some len0 =>
        rw [parseFrom_step data pos acc len0 (by omega) hint,
            parseFrom_step (data.drop pos) 0 acc len0 (by simp only [List.length_drop]; omega)
              (by rw [pySlice_drop]; exact hint)]
        rw [parseFrom_shift data (pos + 4 + len0) _,
            parseFrom_shift (data.drop pos) (0 + 4 + len0) _]
        rw [List.drop_drop]
        have he : pos + (0 + 4 + len0) = pos + 4 + len0 := by omega
        rw [he]
        simp only [pySlice_drop, Nat.zero_add, Nat.add_zero, Nat.add_assoc]
  · rw [parseFrom_stop data pos acc (by omega),
        parseFrom_stop _ 0 acc (by simp only [List.length_drop]; omega)]
termination_by data.length - pos
decreasing_by all_goals (first | omega | (simp only [List.length_drop]; omega))

theorem parseFrom_acc (data : List Char) (pos : Nat) (acc : List TLVField) :
    parseFrom data pos acc = acc ++ parseFrom data pos [] := by
  by_cases h4 : data.length < pos + 4
  · rw [parseFrom_stop _ _ _ h4, parseFrom_stop _ _ _ h4, List.append_nil]
  · cases hint : int2 (pySlice data (pos + 2) (pos + 4)) with
    | none =>
      rw [parseFrom_malformed _ _ _ (by omega) hint, parseFrom_malformed _ _ _ (by omega) hint,
        List.append_nil]
    | some len0 =>
      rw [parseFrom_step data pos acc len0 (by omega) hint,
          parseFrom_step data pos [] len0 (by omega) hint]
      rw [parseFrom_acc data (pos + 4 + len0)]
      conv_rhs => rw [parseFrom_acc data (pos + 4 + len0)]
      simp [List.append_assoc]
termination_by data.length - pos
decreasing_by all_goals omega

theorem parseFrom_le99 (data : List Char) (pos : Nat) (acc : List TLVField)
    (hacc : ∀ f ∈ acc, f.length ≤ 99) : ∀ f ∈ parseFrom data pos acc, f.length ≤ 99 := by
  by_cases h4 : data.length < pos + 4
  · rw [parseFrom_stop _ _ _ h4]; exact hacc
  · cases hint : int2 (pySlice data (pos + 2) (pos + 4)) with
    | none => rw [parseFrom_malformed _ _ _ (by omega) hint]; exact hacc
    | some len0 =>
      rw [parseFrom_step data pos acc len0 (by omega) hint]
      refine parseFrom_le99 data (pos + 4 + len0) _ ?_
      intro f hf
      rcases List.mem_append.mp hf with hm | hm
      · exact hacc f hm
      · simp only [List.mem_singleton] at hm
        subst hm
        exact int2_le _ _ hint
termination_by data.length - pos
decreasing_by all_goals omega

theorem serializeAll_cons (f : TLVField) (fs : List TLVField) :
    serializeAll (f :: fs) = serializeField f ++ serializeAll fs := by
  simp [serializeAll]

theorem serializeField_length (f : TLVField) (hf : goodField f) :
    (serializeField f).length = 4 + f.length := by
  obtain ⟨ht, hv, hl⟩ := hf
  simp [serializeField, ht, hv, fmt02]
  omega

theorem parseFrom_field (f : TLVField) (rest : List Char) (acc : List TLVField)
    (hf : goodField f) :
    parseFrom (serializeField f ++ rest) 0 acc = parseFrom rest 0 (acc ++ [f]) := by
  obtain ⟨ht, hv, hl⟩ := hf
  have hfmt : (fmt02 f.length).length = 2 := rfl
  have hdata : serializeField f ++ rest = f.tag ++ (fmt02 f.length ++ (f.value ++ rest)) := by
    simp [serializeField, List.append_assoc]
  have hL : (serializeField f ++ rest).length = 4 + f.length + rest.length := by
    rw [List.length_append, serializeField_length f ⟨ht, hv, hl⟩]
  have hs1 : pySlice (serializeField f ++ rest) 0 2 = f.tag := by
    rw [hdata]
    unfold pySlice
    rw [List.drop_zero]
    exact take_len_append _ _ _ ht
  have hs2 : pySlice (serializeField f ++ rest) 2 4 = fmt02 f.length := by
    rw [hdata]
    unfold pySlice
    rw [drop_len_append _ _ _ ht]
    exact take_len_append _ _ _ hfmt
  have hs3 : pySlice (serializeField f ++ rest) 4 (4 + f.length) = f.value := by
    have hdata2 : serializeField f ++ rest = (f.tag ++ fmt02 f.length) ++ (f.value ++ rest) := by
      simp [serializeField, List.append_assoc]
    rw [hdata2]
    unfold pySlice
    rw [drop_len_append _ _ 4 (by rw [List.length_append, ht, hfmt])]
    have h4 : 4 + f.length - 4 = f.length := by omega
    rw [h4]
    exact take_len_append _ _ _ hv
  have hdrop : (serializeField f ++ rest).drop (4 + f.length) = rest :=
    drop_len_append _ _ _ (serializeField_length f ⟨ht, hv, hl⟩)
  rw [parseFrom_step (serializeField f ++ rest) 0 acc f.length (by omega) ?hint]
  case hint =>
    have h24 : pySlice (serializeField f ++ rest) (0 + 2) (0 + 4) =
        pySlice (serializeField f ++ rest) 2 4 := by norm_num
    rw [h24, hs2]
    exact fmt02_int2 f.length hl
  simp only [Nat.zero_add]
  rw [hs1, hs3]
  rw [parseFrom_shift _ (4 + f.length), hdrop]

theorem parseFrom_serialize (fs : List TLVField) (g : List Char) (acc : List TLVField)
    (h : ∀ f ∈ fs, goodField f) :
    parseFrom (serializeAll fs ++ g) 0 acc = parseFrom g 0 (acc ++ fs) := by
  induction fs generalizing acc with
  | nil => simp [serializeAll]
  | cons f fs ih =>
    rw [serializeAll_cons, List.append_assoc, parseFrom_field f _ acc (h f (by simp)),
        ih (acc ++ [f]) (fun f2 hf2 => h f2 (by simp [hf2]))]
    congr 1
    simp

theorem occurrences_serialize_junk (fs : List TLVField) (g : List Char)
    (h : ∀ f ∈ fs, goodField f) (hg : g.length < 4) :
    occurrences (serializeAll fs ++ g) = fs := by
  unfold occurrences
  rw [parseFrom_serialize fs g [] h, parseFrom_stop _ _ _ (by omega), List.nil_append]

theorem occurrences_serialize (fs : List TLVField) (h : ∀ f ∈ fs, goodField f) :
    occurrences (serializeAll fs) = fs := by
  have h2 := occurrences_serialize_junk fs [] h (by norm_num)
  rwa [List.append_nil] at h2

theorem findSub_stop (data target : List Char) (pos : Nat) (h : data.length < pos + 4) :
    findSub data target pos = none := by
  rw [findSub]
  by_cases h1 : pos < data.length
  · rw [dif_pos h1, if_pos (by omega)]
  · rw [dif_neg h1]

theorem findSub_malformed (data target : List Char) (pos : Nat)
    (h1 : pos + 4 ≤ data.length) (h2 : int2 (pySlice data (pos + 2) (pos + 4)) = none) :
    findSub data target pos = none := by
  rw [findSub, dif_pos (by omega), if_neg (by omega), h2]

theorem findSub_found (data target : List Char) (pos : Nat) (len0 : Nat)
    (h1 : pos + 4 ≤ data.length) (h2 : int2 (pySlice data (pos + 2) (pos + 4)) = some len0)
    (hm : pySlice data pos (pos + 2) = target) :
    findSub data target pos = some (pySlice data (pos + 4) (pos + 4 + len0)) := by
  rw [findSub, dif_pos (by omega), if_neg (by omega)]
  simp only [h2]
  rw [if_pos hm]

theorem findSub_miss (data target : List Char) (pos : Nat) (len0 : Nat)
    (h1 : pos + 4 ≤ data.length) (h2 : int2 (pySlice data (pos + 2) (pos + 4)) = some len0)
    (hm : pySlice data pos (pos + 2) ≠ target) :
    findSub data target pos = findSub data target (pos + 4 + len0) := by
  rw [findSub, dif_pos (by omega), if_neg (by omega)]
  simp only [h2]
  rw [if_neg hm]

theorem findSub_first (data target : List Char) (pos : Nat) :
    findSub data target pos =
      ((parseFrom data pos []).find? (fun f => f.tag == target)).map TLVField.value := by
  by_cases h4 : data.length < pos + 4
  · rw [findSub_stop _ _ _ h4, parseFrom_stop _ _ _ h4]
    rfl
  · cases hint : int2 (pySlice data (pos + 2) (pos + 4)) with
    | none =>
      rw [findSub_malformed _ _ _ (by omega) hint, parseFrom_malformed _ _ _ (by omega) hint]
      rfl
    | some len0 =>
      rw [parseFrom_step data pos [] len0 (by omega) hint,
          parseFrom_acc data (pos + 4 + len0), List.nil_append, List.singleton_append,
          List.find?_cons]
      by_cases hm : pySlice data pos (pos + 2) = target
      · rw [findSub_found data target pos len0 (by omega) hint hm]
        simp [hm]
      · rw [findSub_miss data target pos len0 (by omega) hint hm,
            findSub_first data target (pos + 4 + len0)]
        have hbeq : (pySlice data pos (pos + 2) == target) = false := by
          simp [hm]
        simp [hbeq]
termination_by data.length - pos
decreasing_by all_goals omega

theorem buildLoop_stop (data : List Char) (mods : List (List Char × List Char)) (pos : Nat)
    (acc : List Char) (h : data.length < pos + 4) : buildLoop data mods pos acc = .ok acc := by
  rw [buildLoop]
  by_cases h1 : pos < data.length
  · rw [dif_pos h1, if_pos (by omega)]
  · rw [dif_neg h1]

theorem buildLoop_malformed (data : List Char) (mods : List (List Char × List Char)) (pos : Nat)
    (acc : List Char) (h1 : pos + 4 ≤ data.length)
    (h2 : int2 (pySlice data (pos + 2) (pos + 4)) = none) :
    buildLoop data mods pos acc = .ok acc := by
  rw [buildLoop, dif_pos (by omega), if_neg (by omega)]
  simp only [h2]

theorem buildLoop_skip (data : List Char) (mods : List (List Char × List Char)) (pos : Nat)
    (acc : List Char) (len0 : Nat) (h1 : pos + 4 ≤ data.length)
    (hint : int2 (pySlice data (pos + 2) (pos + 4)) = some len0)
    (h63 : pySlice data pos (pos + 2) = chars "63") :
    buildLoop data mods pos acc = buildLoop data mods (pos + 4 + len0) acc := by
  rw [buildLoop, dif_pos (by omega), if_neg (by omega)]
  simp only [hint]
  rw [if_pos h63]

theorem buildLoop_field (data : List Char) (mods : List (List Char × List Char)) (pos : Nat)
    (acc : List Char) (len0 : Nat) (h1 : pos + 4 ≤ data.length)
    (hint : int2 (pySlice data (pos + 2) (pos + 4)) = some len0)
    (h63 : pySlice data pos (pos + 2) ≠ chars "63") :
    buildLoop data mods pos acc =
      (if maxLen (pySlice data pos (pos + 2)) <
          substLen mods ⟨pySlice data pos (pos + 2), len0, pySlice data (pos + 4) (pos + 4 + len0)⟩
       then Except.error ⟨pySlice data pos (pos + 2),
          substLen mods ⟨pySlice data pos (pos + 2), len0, pySlice data (pos + 4) (pos + 4 + len0)⟩,
          maxLen (pySlice data pos (pos + 2))⟩
       else buildLoop data mods (pos + 4 + len0)
          (acc ++ pySlice data pos (pos + 2) ++
            fmt02 (substLen mods ⟨pySlice data pos (pos + 2), len0,
              pySlice data (pos + 4) (pos + 4 + len0)⟩) ++
            substVal mods ⟨pySlice data pos (pos + 2), len0,
              pySlice data (pos + 4) (pos + 4 + len0)⟩)) := by
  rw [buildLoop, dif_pos (by omega), if_neg (by omega)]
  simp only [hint]
  rw [if_neg h63]
  unfold substLen substVal
  cases hov : ovLookup mods (pySlice data pos (pos + 2)) <;> simp only [hov]

theorem buildLoop_eq (data : List Char) (mods : List (List Char × List Char)) (pos : Nat)
    (acc : List Char) :
    buildLoop data mods pos acc = processFields (parseFrom data pos []) mods acc := by
  by_cases h4 : data.length < pos + 4
  · rw [buildLoop_stop _ _ _ _ h4, parseFrom_stop _ _ _ h4]
    rfl
  · cases hint : int2 (pySlice data (pos + 2) (pos + 4)) with
    | none =>
      rw [buildLoop_malformed _ _ _ _ (by omega) hint, parseFrom_malformed _ _ _ (by omega) hint]
      rfl
    | some len0 =>
      rw [parseFrom_step data pos [] len0 (by omega) hint,
          parseFrom_acc data (pos + 4 + len0), List.nil_append, List.singleton_append]
      simp only [processFields]
      by_cases h63 : pySlice data pos (pos + 2) = chars "63"
      · rw [buildLoop_skip data mods pos acc len0 (by omega) hint h63,
            buildLoop_eq data mods (pos + 4 + len0) acc, if_pos h63]
      · rw [buildLoop_field data mods pos acc len0 (by omega) hint h63, if_neg h63]
        by_cases hviol : maxLen (pySlice data pos (pos + 2)) <
            substLen mods ⟨pySlice data pos (pos + 2), len0, pySlice data (pos + 4) (pos + 4 + len0)⟩
        · rw [if_pos hviol, if_pos hviol]
        · rw [if_neg hviol, if_neg hviol,
              buildLoop_eq data mods (pos + 4 + len0) _]
termination_by data.length - pos
decreasing_by all_goals omega

theorem processFields_ok (fs : List TLVField) (mods : List (List Char × List Char)) :
    ∀ acc : List Char, (∀ f ∈ fs, f.tag ≠ chars "63" → substLen mods f ≤ maxLen f.tag) →
      processFields fs mods acc =
        .ok (acc ++ ((fs.filter (fun f => !(f.tag == chars "63"))).map
          (fun f => f.tag ++ fmt02 (substLen mods f) ++ substVal mods f)).flatten) := by
  induction fs with
  | nil => intro acc h; simp [processFields]
  | cons f fs ih =>
    intro acc h
    simp only [processFields]
    by_cases h63 : f.tag = chars "63"
    · rw [if_pos h63, ih acc (fun g hg => h g (by simp [hg]))]
      simp [h63]
    · rw [if_neg h63, if_neg (not_lt.mpr (h f (by simp) h63)),
          ih _ (fun g hg => h g (by simp [hg]))]
      simp [h63, List.append_assoc]

theorem processFields_error_content (fs : List TLVField) (mods : List (List Char × List Char)) :
    ∀ (acc : List Char) (e : BuildError), processFields fs mods acc = .error e →
      e.max = maxLen e.tag ∧ maxLen e.tag < e.length ∧
        ∃ f ∈ fs, f.tag = e.tag ∧ substLen mods f = e.length ∧ f.tag ≠ chars "63" := by
  induction fs with
  | nil => intro acc e h; simp [processFields] at h
  | cons f fs ih =>
    intro acc e h
    simp only [processFields] at h
    by_cases h63 : f.tag = chars "63"
    · rw [if_pos h63] at h
      obtain ⟨h1, h2, g, hg, hrest⟩ := ih acc e h
      exact ⟨h1, h2, g, by simp [hg], hrest⟩
    · rw [if_neg h63] at h
      by_cases hv : maxLen f.tag < substLen mods f
      · rw [if_pos hv] at h
        simp only [Except.error.injEq] at h
        subst h
        exact ⟨rfl, hv, f, by simp, rfl, rfl, h63⟩
      · rw [if_neg hv] at h
        obtain ⟨h1, h2, g, hg, hrest⟩ := ih _ e h
        exact ⟨h1, h2, g, by simp [hg], hrest⟩

theorem processFields_error_exists (fs : List TLVField) (mods : List (List Char × List Char)) :
    ∀ (acc : List Char) (f : TLVField), f ∈ fs → f.tag ≠ chars "63" →
      maxLen f.tag < substLen mods f → ∃ e, processFields fs mods acc = .error e := by
  induction fs with
  | nil => intro acc f hf; cases hf
  | cons g fs ih =>
    intro acc f hf h63 hv
    simp only [processFields]
    by_cases hg63 : g.tag = chars "63"
    · rw [if_pos hg63]
      rcases List.mem_cons.mp hf with rfl | hm
      · exact absurd hg63 h63
      · exact ih acc f hm h63 hv
    · rw [if_neg hg63]
      by_cases hgv : maxLen g.tag < substLen mods g
      · rw [if_pos hgv]
        exact ⟨_, rfl⟩
      · rw [if_neg hgv]
        rcases List.mem_cons.mp hf with rfl | hm
        · exact absurd hv hgv
        · exact ih _ f hm h63 hv

theorem ovLookup_none (mods : List (List Char × List Char)) (t : List Char)
    (h : ∀ p ∈ mods, p.1 ≠ t) : ovLookup mods t = none := by
  unfold ovLookup
  have hrev : ∀ p ∈ mods.reverse, p.1 ≠ t := fun p hp => h p (List.mem_reverse.mp hp)
  generalize mods.reverse = l at hrev
  induction l with
  | nil => rfl
  | cons p l ih =>
    obtain ⟨k, v⟩ := p
    have hk : (t == k) = false := by
      simp only [beq_eq_false_iff_ne, ne_eq]
      exact Ne.symm (hrev (k, v) (by simp))
    simp only [List.lookup, hk]
    exact ih (fun q hq => hrev q (by simp [hq]))

theorem isPySpace_toNat (c : Char) (h : isPySpace c = true) : c.toNat < 48 := by
  simp only [isPySpace, Bool.or_eq_true, beq_iff_eq] at h
  rcases h with ((((h | h) | h) | h) | h) | h <;> subst h <;> decide

theorem isDig_not_space (c : Char) (h : isDig c = true) : isPySpace c = false := by
  by_contra hc
  have ht : isPySpace c = true := by revert hc; cases isPySpace c <;> simp
  have h2 := isPySpace_toNat c ht
  simp only [isDig, Bool.and_eq_true, decide_eq_true_eq] at h
  omega

theorem pyStrip_eq_self (s : List Char)
    (h1 : ∀ c, s.head? = some c → isPySpace c = false)
    (h2 : ∀ c, s.getLast? = some c → isPySpace c = false) :
    pyStrip s = s := by
  unfold pyStrip
  have hd : s.dropWhile isPySpace = s := by
    cases s with
    | nil => rfl
    | cons a l =>
      rw [List.dropWhile_cons, if_neg (by simp [h1 a rfl])]
  rw [hd]
  have hd2 : s.reverse.dropWhile isPySpace = s.reverse := by
    cases hrev : s.reverse with
    | nil => rfl
    | cons a l =>
      rw [List.dropWhile_cons, if_neg ?hc]
      case hc =>
        have hla : s.getLast? = some a := by
          rw [← List.head?_reverse, hrev]
          rfl
        simp [h2 a hla]
  rw [hd2, List.reverse_reverse]

theorem crcStep_lt (c : Nat) : crcStep c < 65536 := by
  unfold crcStep
  split <;> exact Nat.mod_lt _ (by norm_num)

theorem crcByte_lt (c b : Nat) : crcByte c b < 65536 := by
  unfold crcByte
  rw [show List.range 8 = [0, 1, 2, 3, 4, 5, 6, 7] from rfl]
  simp only [List.foldl]
  exact crcStep_lt _

theorem crc16_lt (bs : List Nat) : crc16 bs < 65536 := by
  unfold crc16
  have hgen : ∀ (l : List Nat) (init : Nat), init < 65536 → l.foldl crcByte init < 65536 := by
    intro l
    induction l with
    | nil => intro init h; exact h
    | cons b l ih => intro init _; exact ih _ (crcByte_lt _ _)
  exact hgen bs 65535 (by norm_num)

theorem hexDigit_contains (d : Nat) (h : d < 16) :
    (chars "0123456789ABCDEF").contains (hexDigit d) = true := by
  interval_cases d <;> decide

theorem hexDigit_not_space (d : Nat) (h : d < 16) : isPySpace (hexDigit d) = false := by
  interval_cases d <;> decide

theorem hex4_length (n : Nat) : (hex4 n).length = 4 := rfl

theorem hex4_getLast (n : Nat) : (hex4 n).getLast? = some (hexDigit (n % 16)) := rfl

theorem findSub_nil (target : List Char) : findSub [] target 0 = none :=
  findSub_stop [] target 0 (by norm_num)

/-- C5: the checksum engine computes CRC-16/CCITT-FALSE (poly 0x1021, init
0xFFFF, no reflection, no final xor) over the input bytes and formats the
result as exactly 4 uppercase zero-padded hexadecimal digits; the checksum of
the ASCII string "123456789" is "29B1". -/
theorem c5_checksum_engine :
    calculate_checksum (chars "123456789") = chars "29B1" ∧
    ∀ s : List Char, (calculate_checksum s).length = 4 ∧
      (calculate_checksum s).all (fun c => (chars "0123456789ABCDEF").contains c) = true := by
  refine ⟨by decide, fun s => ⟨rfl, ?_⟩⟩
  unfold calculate_checksum hex4
  have hm : ∀ n : Nat, n % 16 < 16 := fun n => Nat.mod_lt _ (by norm_num)
  rw [List.all_eq_true]
  intro c hc
  simp only [List.mem_cons, List.not_mem_nil, or_false] at hc
  rcases hc with rfl | rfl | rfl | rfl <;> exact hexDigit_contains _ (hm _)

/-- C3: the TLV parse loop stops without error when fewer than 4 characters
remain past the cursor; stops immediately, returning the document built so
far, when the 2-character length field is not parseable as decimal digits;
and when fewer than `length` characters remain after the 4-character header
it takes whatever remains as the value without error, advancing the cursor by
4 + length. -/
theorem c3_parse_loop_stops (data : List Char) (pos : Nat) (acc : List TLVField) :
    (data.length < pos + 4 → parseFrom data pos acc = acc) ∧
    (pos + 4 ≤ data.length → int2 (pySlice data (pos + 2) (pos + 4)) = none →
      parseFrom data pos acc = acc) ∧
    (∀ len0, pos + 4 ≤ data.length → int2 (pySlice data (pos + 2) (pos + 4)) = some len0 →
      data.length < pos + 4 + len0 →
      parseFrom data pos acc = parseFrom data (pos + 4 + len0)
        (acc ++ [⟨pySlice data pos (pos + 2), len0, data.drop (pos + 4)⟩])) := by
  refine ⟨fun h => parseFrom_stop data pos acc h,
          fun h1 h2 => parseFrom_malformed data pos acc h1 h2,
          fun len0 h1 h2 h3 => ?_⟩
  rw [parseFrom_step data pos acc len0 h1 h2]
  have hv : pySlice data (pos + 4) (pos + 4 + len0) = data.drop (pos + 4) := by
    unfold pySlice
    apply List.take_of_length_le
    simp only [List.length_drop]
    omega
  rw [hv]

theorem c3_witness :
    parseFrom (chars "abc") 0 [] = [] ∧
    parseFrom (chars "00XYrest") 0 [] = [] ∧
    parseFrom (chars "5905ABC") 0 [] = parseFrom (chars "5905ABC") (0 + 4 + 5)
      ([] ++ [⟨pySlice (chars "5905ABC") 0 (0 + 2), 5, (chars "5905ABC").drop (0 + 4)⟩]) :=
  ⟨(c3_parse_loop_stops (chars "abc") 0 []).1 (by decide),
   (c3_parse_loop_stops (chars "00XYrest") 0 []).2.1 (by decide) (by decide),
   (c3_parse_loop_stops (chars "5905ABC") 0 []).2.2 5 (by decide) (by decide) (by decide)⟩

/-- C8: the summary view presented by the parser omits every entry whose
value is the empty string: what is displayed is exactly the sequence of
`get_info` entries with non-empty values, in `get_info` order. -/
theorem c8_summary_omits_empty (doc : List TLVField) :
    List.Sublist (displayedInfo doc) (get_info doc) ∧
    (∀ p ∈ displayedInfo doc, p.2 ≠ []) ∧
    (∀ p ∈ get_info doc, p.2 ≠ [] → p ∈ displayedInfo doc) := by
  unfold displayedInfo
  refine ⟨List.filter_sublist _, ?_, ?_⟩
  · intro p hp
    have h2 := List.of_mem_filter hp
    simpa using h2
  · intro p hp hne
    exact List.mem_filter.mpr ⟨hp, by simpa using hne⟩

theorem displayedInfo_concrete :
    displayedInfo [⟨chars "59", 2, chars "AB"⟩] = [(chars "Merchant Name", chars "AB")] := by
  unfold displayedInfo get_info
  unfold merchant_name merchant_city checksum nmid acquiring_id terminal_id
  simp +decide [getValue, dataLookup, findSub_nil]

theorem c8_witness :
    (chars "AB") ≠ ([] : List Char) ∧
    (chars "Merchant Name", chars "AB") ∈ displayedInfo [⟨chars "59", 2, chars "AB"⟩] := by
  constructor
  · exact (c8_summary_omits_empty [⟨chars "59", 2, chars "AB"⟩]).2.1
      (chars "Merchant Name", chars "AB") (by rw [displayedInfo_concrete]; decide)
  · refine (c8_summary_omits_empty [⟨chars "59", 2, chars "AB"⟩]).2.2
      (chars "Merchant Name", chars "AB") ?_ (by decide)
    have hm : merchant_name [⟨chars "59", 2, chars "AB"⟩] = chars "AB" := by decide
    simp [get_info, hm]

theorem reasonMismatch_take2 (c g : List Char) : (reasonMismatch c g).take 2 = chars "Ch" := rfl

theorem reasonMismatch_ne_fixed (c g : List Char) :
    reasonMismatch c g ∉
      [reasonShort, reasonFormat, reasonNoChecksum, reasonCkFormat, reasonNoName, reasonValid] := by
  intro hmem
  have h2 := reasonMismatch_take2 c g
  simp only [List.mem_cons, List.not_mem_nil, or_false] at hmem
  rcases hmem with h | h | h | h | h | h <;> (rw [h] at h2; exact absurd h2 (by decide))

/-- C4: the validator checks, in a fixed short-circuit order, the 50-character
length floor, the "000201" prefix, the presence of "6304", room for 4
characters after the last "6304", the checksum recomputed over everything up
to and including that header against the 4 following characters (uppercased;
a mismatch reports both values), and the presence of "59"; each check carries
a distinct reason, success returns (true, "QRIS valid"), and the function is
total (it never throws). -/
theorem c4_validator_checks (data : List Char) :
    (data.length < 50 → validate data = (false, reasonShort)) ∧
    (50 ≤ data.length → (chars "000201").isPrefixOf data = false →
      validate data = (false, reasonFormat)) ∧
    (50 ≤ data.length → (chars "000201").isPrefixOf data = true →
      containsSub data (chars "6304") = false → validate data = (false, reasonNoChecksum)) ∧
    (∀ p, 50 ≤ data.length → (chars "000201").isPrefixOf data = true →
      containsSub data (chars "6304") = true → pyRFind data (chars "6304") = some p →
      data.length < p + 8 → validate data = (false, reasonCkFormat)) ∧
    (∀ p, 50 ≤ data.length → (chars "000201").isPrefixOf data = true →
      containsSub data (chars "6304") = true → pyRFind data (chars "6304") = some p →
      p + 8 ≤ data.length → upperGot data p ≠ calcAt data p →
      validate data = (false, reasonMismatch (calcAt data p) (upperGot data p))) ∧
    (∀ p, 50 ≤ data.length → (chars "000201").isPrefixOf data = true →
      containsSub data (chars "6304") = true → pyRFind data (chars "6304") = some p →
      p + 8 ≤ data.length → upperGot data p = calcAt data p →
      containsSub data (chars "59") = false → validate data = (false, reasonNoName)) ∧
    (∀ p, 50 ≤ data.length → (chars "000201").isPrefixOf data = true →
      containsSub data (chars "6304") = true → pyRFind data (chars "6304") = some p →
      p + 8 ≤ data.length → upperGot data p = calcAt data p →
      containsSub data (chars "59") = true → validate data = (true, reasonValid)) ∧
    (List.Pairwise (fun a b => a ≠ b)
      [reasonShort, reasonFormat, reasonNoChecksum, reasonCkFormat, reasonNoName, reasonValid] ∧
     ∀ c g, reasonMismatch c g ∉
       [reasonShort, reasonFormat, reasonNoChecksum, reasonCkFormat, reasonNoName, reasonValid]) := by
  refine ⟨?_, ?_, ?_, ?_, ?_, ?_, ?_, by decide, reasonMismatch_ne_fixed⟩
  · intro h
    unfold validate
    rw [if_pos h]
  · intro h1 h2
    unfold validate
    rw [if_neg (not_lt.mpr h1), if_pos (by simp [h2])]
  · intro h1 h2 h3
    unfold validate
    rw [if_neg (not_lt.mpr h1), if_neg (by simp [h2]), if_pos (by simp [h3])]
  · intro p h1 h2 h3 h4 h5
    unfold validate
    rw [if_neg (not_lt.mpr h1), if_neg (by simp [h2]), if_neg (by simp [h3])]
    simp only [h4]
    rw [if_pos h5]
  · intro p h1 h2 h3 h4 h5 h6
    unfold validate
    rw [if_neg (not_lt.mpr h1), if_neg (by simp [h2]), if_neg (by simp [h3])]
    simp only [h4]
    rw [if_neg (not_lt.mpr h5), if_pos h6]
  · intro p h1 h2 h3 h4 h5 h6 h7
    unfold validate
    rw [if_neg (not_lt.mpr h1), if_neg (by simp [h2]), if_neg (by simp [h3])]
    simp only [h4]
    rw [if_neg (not_lt.mpr h5), if_neg (by simp [h6]), if_pos (by simp [h7])]
  · intro p h1 h2 h3 h4 h5 h6 h7
    unfold validate
    rw [if_neg (not_lt.mpr h1), if_neg (by simp [h2]), if_neg (by simp [h3])]
    simp only [h4]
    rw [if_neg (not_lt.mpr h5), if_neg (by simp [h6]), if_neg (by simp [h7])]


theorem utf8Encode_append (a b : List Char) :
    utf8Encode (a ++ b) = utf8Encode a ++ utf8Encode b := by
  simp [utf8Encode]

theorem crc_bodyP0 : crc16 (utf8Encode bodyP0) = 11409 := by
  have hb : bodyP0 = chars "00020159" ++ (chars "04NAME52" ++ (chars "30ABCDEF" ++
      (chars "GHIJKLMN" ++ (chars "OPQRSTUV" ++ (chars "WXYZ0123" ++ chars "6304"))))) := by
    decide
  rw [hb]
  unfold crc16
  rw [utf8Encode_append, List.foldl_append,
      show List.foldl crcByte 65535 (utf8Encode (chars "00020159")) = 51944 from by decide]
  rw [utf8Encode_append, List.foldl_append,
      show List.foldl crcByte 51944 (utf8Encode (chars "04NAME52")) = 54088 from by decide]
  rw [utf8Encode_append, List.foldl_append,
      show List.foldl crcByte 54088 (utf8Encode (chars "30ABCDEF")) = 62392 from by decide]
  rw [utf8Encode_append, List.foldl_append,
      show List.foldl crcByte 62392 (utf8Encode (chars "GHIJKLMN")) = 9289 from by decide]
  rw [utf8Encode_append, List.foldl_append,
      show List.foldl crcByte 9289 (utf8Encode (chars "OPQRSTUV")) = 33973 from by decide]
  rw [utf8Encode_append, List.foldl_append,
      show List.foldl crcByte 33973 (utf8Encode (chars "WXYZ0123")) = 56360 from by decide]
  decide

theorem calc_bodyP0 : calculate_checksum bodyP0 = chars "2C91" := by
  unfold calculate_checksum
  rw [crc_bodyP0]
  decide

theorem P0_eq_lit : P0 = chars "0002015904NAME5230ABCDEFGHIJKLMNOPQRSTUVWXYZ012363042C91" := by
  unfold P0
  rw [calc_bodyP0]
  decide

theorem validate_valid_case (data : List Char) (p : Nat) (h1 : 50 ≤ data.length)
    (h2 : (chars "000201").isPrefixOf data = true)
    (h3 : containsSub data (chars "6304") = true)
    (h4 : pyRFind data (chars "6304") = some p) (h5 : p + 8 ≤ data.length)
    (h6 : upperGot data p = calcAt data p) (h7 : containsSub data (chars "59") = true) :
    validate data = (true, reasonValid) := by
  unfold validate
  rw [if_neg (not_lt.mpr h1), if_neg (by simp [h2]), if_neg (by simp [h3])]
  simp only [h4]
  rw [if_neg (not_lt.mpr h5), if_neg (by simp [h6]), if_neg (by simp [h7])]

theorem c4_witness :
    validate (chars "short") = (false, reasonShort) ∧
    validate (chars "XX0201" ++ List.replicate 50 'A') = (false, reasonFormat) ∧
    validate P0 = (true, reasonValid) := by
  refine ⟨(c4_validator_checks _).1 (by decide),
    (c4_validator_checks _).2.1 (by decide) (by decide), ?_⟩
  refine (c4_validator_checks P0).2.2.2.2.2.2.1 48 ?_ ?_ ?_ ?_ ?_ ?_ ?_
  · rw [P0_eq_lit]; decide
  · rw [P0_eq_lit]; decide
  · rw [P0_eq_lit]; decide
  · rw [P0_eq_lit]; decide
  · rw [P0_eq_lit]; decide
  · rw [P0_eq_lit]
    unfold upperGot calcAt
    rw [show (chars "0002015904NAME5230ABCDEFGHIJKLMNOPQRSTUVWXYZ012363042C91").take (48 + 4) =
        bodyP0 from by decide, calc_bodyP0]
    decide
  · rw [P0_eq_lit]; decide

theorem serializeAll_append (a b : List TLVField) :
    serializeAll (a ++ b) = serializeAll a ++ serializeAll b := by
  simp [serializeAll]

theorem substLen_nil (f : TLVField) : substLen [] f = f.length := rfl

theorem substVal_nil (f : TLVField) : substVal [] f = f.value := rfl

/-- C1 counterexample: `P0junk` (a correct-checksum payload with one character
of trailing garbage) is accepted by the Validator, yet `build()` with no
overrides silently drops the garbage, so the output is not byte-identical to
the original even though the original checksum was already correct. -/
theorem c1_counterexample :
    validate P0junk = (true, reasonValid) ∧ buildQris P0junk [] = Except.ok P0 ∧
      P0junk ≠ P0 := by
  have hPJ : P0junk = chars "0002015904NAME5230ABCDEFGHIJKLMNOPQRSTUVWXYZ012363042C91z" := by
    rw [P0junk, P0_eq_lit]
    decide
  refine ⟨?_, ?_, ?_⟩
  · rw [hPJ]
    refine validate_valid_case _ 48 (by decide) (by decide) (by decide) (by decide)
      (by decide) ?_ (by decide)
    unfold upperGot calcAt
    rw [show (chars "0002015904NAME5230ABCDEFGHIJKLMNOPQRSTUVWXYZ012363042C91z").take (48 + 4) =
        bodyP0 from by decide, calc_bodyP0]
    decide
  · have hstrip : pyStrip P0junk = P0junk := by
      rw [hPJ]
      decide
    unfold buildQris
    rw [hstrip, buildLoop_eq]
    have hocc : parseFrom P0junk 0 [] = fs63P0 := by
      have h2 := occurrences_serialize_junk fs63P0 [Char.ofNat 122] (by decide) (by decide)
      unfold occurrences at h2
      rw [show serializeAll fs63P0 ++ [Char.ofNat 122] = P0junk from by rw [hPJ]; decide] at h2
      exact h2
    rw [hocc,
        show processFields fs63P0 [] [] = Except.ok (serializeAll fsP0) from rfl]
    rfl
  · rw [hPJ, P0_eq_lit]
    decide

/-- C1 (amended): the unrestricted round-trip claim fails on
validator-accepted payloads with trailing garbage (see the counterexample);
it holds for canonical payloads.  For every list of canonical fields
(two-ASCII-digit tags, exact declared lengths within the per-tag maxima, no
checksum tag), building the serialized payload, terminated by the checksum
field "6304" + CRC, with an empty Override Set is byte-identical, and its
decoded document is exactly those fields followed by the checksum field. -/
theorem c1_roundtrip_canonical (fs : List TLVField) (h : ∀ f ∈ fs, canonField f) :
    buildQris (serializeAll fs ++ chars "6304" ++
        calculate_checksum (serializeAll fs ++ chars "6304")) [] =
      Except.ok (serializeAll fs ++ chars "6304" ++
        calculate_checksum (serializeAll fs ++ chars "6304")) ∧
    occurrences (serializeAll fs ++ chars "6304" ++
        calculate_checksum (serializeAll fs ++ chars "6304")) =
      fs ++ [⟨chars "63", 4, calculate_checksum (serializeAll fs ++ chars "6304")⟩] := by
  set ck := calculate_checksum (serializeAll fs ++ chars "6304") with hck
  have hck_len : ck.length = 4 := by rw [hck]; rfl
  have hck_ne : ck ≠ [] := by
    intro hc
    rw [hc] at hck_len
    exact absurd hck_len (by norm_num)
  have hcf_good : goodField ⟨chars "63", 4, ck⟩ := ⟨rfl, hck_len, by norm_num⟩
  have hgood : ∀ f ∈ fs ++ [⟨chars "63", 4, ck⟩], goodField f := by
    intro f hf
    rcases List.mem_append.mp hf with hm | hm
    · exact (h f hm).1
    · simp only [List.mem_singleton] at hm
      subst hm
      exact hcf_good
  have hraw : serializeAll fs ++ chars "6304" ++ ck =
      serializeAll (fs ++ [⟨chars "63", 4, ck⟩]) := by
    rw [serializeAll_append, List.append_assoc]
    congr 1
    show chars "6304" ++ ck = serializeAll [⟨chars "63", 4, ck⟩]
    show chars "6304" ++ ck = chars "63" ++ fmt02 4 ++ ck ++ []
    rw [List.append_nil]
    rfl
  have hocc : occurrences (serializeAll fs ++ chars "6304" ++ ck) =
      fs ++ [⟨chars "63", 4, ck⟩] := by
    rw [hraw]
    exact occurrences_serialize _ hgood
  refine ⟨?_, hocc⟩
  have hstrip : pyStrip (serializeAll fs ++ chars "6304" ++ ck) =
      serializeAll fs ++ chars "6304" ++ ck := by
    apply pyStrip_eq_self
    · intro c hc
      cases fs with
      | nil =>
        have hh : ((serializeAll ([] : List TLVField) ++ chars "6304") ++ ck).head? =
            some '6' := rfl
        rw [hh] at hc
        simp only [Option.some.injEq] at hc
        subst hc
        decide
      | cons g gs =>
        obtain ⟨hg, _, _, hdig⟩ := h g (by simp)
        obtain ⟨a, b, htag⟩ := List.length_eq_two.mp hg.1
        have hh : ((serializeAll (g :: gs) ++ chars "6304") ++ ck).head? = some a := by
          rw [serializeAll_cons]
          unfold serializeField
          rw [htag]
          rfl
        rw [hh] at hc
        simp only [Option.some.injEq] at hc
        subst hc
        exact isDig_not_space _ (hdig a (by rw [htag]; simp))
    · intro c hc
      have hl : (serializeAll fs ++ chars "6304" ++ ck).getLast? =
          some (hexDigit (crc16 (utf8Encode (serializeAll fs ++ chars "6304")) % 16)) := by
        rw [List.getLast?_append_of_ne_nil _ hck_ne, hck]
        exact hex4_getLast _
      rw [hl] at hc
      simp only [Option.some.injEq] at hc
      subst hc
      exact hexDigit_not_space _ (Nat.mod_lt _ (by norm_num))
  unfold buildQris
  rw [hstrip, buildLoop_eq]
  have hocc2 : parseFrom (serializeAll fs ++ chars "6304" ++ ck) 0 [] =
      fs ++ [⟨chars "63", 4, ck⟩] := hocc
  rw [hocc2]
  have hpf : processFields (fs ++ [⟨chars "63", 4, ck⟩]) [] [] =
      Except.ok (serializeAll fs) := by
    rw [processFields_ok _ _ [] ?hcond]
    case hcond =>
      intro f hf h63
      rcases List.mem_append.mp hf with hm | hm
      · rw [substLen_nil]
        exact (h f hm).2.2.1
      · simp only [List.mem_singleton] at hm
        subst hm
        exact absurd rfl h63
    congr 1
    have hfilter1 : List.filter (fun f => !(f.tag == chars "63"))
        [(⟨chars "63", 4, ck⟩ : TLVField)] = [] := by simp
    rw [List.nil_append, List.filter_append, hfilter1, List.append_nil]
    rw [List.filter_eq_self.mpr (fun f hf => by simp [(h f hf).2.1])]
    rw [List.map_congr_left (fun f _ => by
      rw [substLen_nil, substVal_nil])]
    rfl
  rw [hpf]

theorem c1_witness :
    buildQris (serializeAll fsW ++ chars "6304" ++
        calculate_checksum (serializeAll fsW ++ chars "6304")) [] =
      Except.ok (serializeAll fsW ++ chars "6304" ++
        calculate_checksum (serializeAll fsW ++ chars "6304")) ∧
    occurrences (serializeAll fsW ++ chars "6304" ++
        calculate_checksum (serializeAll fsW ++ chars "6304")) =
      fsW ++ [⟨chars "63", 4, calculate_checksum (serializeAll fsW ++ chars "6304")⟩] :=
  c1_roundtrip_canonical fsW (by decide)

/-- C10: during `build()` the cursor always advances by the length re-read
from the original raw stream, never by an override's length: the whole build
is per-field processing of the occurrence list decoded by the
override-independent parse loop, so which original characters are decoded —
and hence the set and order of tags emitted — is identical across all
Override Sets, with overrides entering only the per-field substitution of
values and recomputed lengths. -/
theorem c10_decode_override_independent (raw : List Char)
    (mods : List (List Char × List Char)) :
    buildQris raw mods = (match processFields (occurrences (pyStrip raw)) mods [] with
      | .error e => .error e
      | .ok body => .ok (body ++ chars "6304" ++ calculate_checksum (body ++ chars "6304"))) := by
  unfold buildQris occurrences
  rw [buildLoop_eq]

/-- C2: with an Override Set reachable in this design (keys among "59", "60",
"61"), `build()` fails — reporting the offending tag, its substituted length
and the allowed maximum, and producing no output — exactly when some decoded
top-level field, its length recomputed to the override's character count when
overridden, exceeds its per-tag maximum (25 for "59", 15 for "60", 5 for
"61", 99 otherwise); in particular overriding the merchant name of a payload
holding tag "59" with a 26-character string fails with tag "59", length 26,
max 25. -/
theorem c2_length_violation (raw : List Char) (mods : List (List Char × List Char))
    (hm : ∀ p ∈ mods, p.1 = chars "59" ∨ p.1 = chars "60" ∨ p.1 = chars "61") :
    ((∃ e, buildQris raw mods = .error e) ↔
      ∃ f ∈ occurrences (pyStrip raw), maxLen f.tag < substLen mods f) ∧
    (∀ e, buildQris raw mods = .error e →
      e.max = maxLen e.tag ∧ maxLen e.tag < e.length ∧
        ∃ f ∈ occurrences (pyStrip raw), f.tag = e.tag ∧ substLen mods f = e.length) ∧
    buildQris (chars "5904NAME") [(chars "59", chars "ABCDEFGHIJKLMNOPQRSTUVWXYZ")] =
      Except.error ⟨chars "59", 26, 25⟩ := by
  have hb : ∀ e, buildQris raw mods = .error e ↔
      processFields (occurrences (pyStrip raw)) mods [] = .error e := by
    intro e
    unfold buildQris occurrences
    rw [buildLoop_eq]
    cases hpf : processFields (parseFrom (pyStrip raw) 0 []) mods [] with
    | error e2 => simp
    | ok body => simp
  refine ⟨⟨?_, ?_⟩, ?_, ?_⟩
  · rintro ⟨e, he⟩
    obtain ⟨h1, h2, f, hf, htag, hlen, h63⟩ :=
      processFields_error_content _ _ _ _ ((hb e).mp he)
    refine ⟨f, hf, ?_⟩
    rw [htag, hlen]
    exact h2
  · rintro ⟨f, hf, hviol⟩
    have h63 : f.tag ≠ chars "63" := by
      intro hteq
      have hnone : ovLookup mods f.tag = none := by
        apply ovLookup_none
        intro p hp
        rcases hm p hp with h | h | h <;> (rw [h, hteq]; decide)
      have hsub : substLen mods f = f.length := by
        unfold substLen
        rw [hnone]
      have hle : f.length ≤ 99 :=
        parseFrom_le99 (pyStrip raw) 0 [] (by intro g hg; cases hg) f hf
      rw [hsub, hteq] at hviol
      rw [show maxLen (chars "63") = 99 from by decide] at hviol
      omega
    obtain ⟨e, he⟩ := processFields_error_exists _ mods [] f hf h63 hviol
    exact ⟨e, (hb e).mpr he⟩
  · intro e he
    obtain ⟨h1, h2, f, hf, htag, hlen, _⟩ :=
      processFields_error_content _ _ _ _ ((hb e).mp he)
    exact ⟨h1, h2, f, hf, htag, hlen⟩
  · have hstrip : pyStrip (chars "5904NAME") = chars "5904NAME" := by decide
    unfold buildQris
    rw [hstrip, buildLoop_eq]
    have hocc : parseFrom (chars "5904NAME") 0 [] = [⟨chars "59", 4, chars "NAME"⟩] := by
      have h2 := occurrences_serialize [⟨chars "59", 4, chars "NAME"⟩] (by decide)
      unfold occurrences at h2
      rw [show serializeAll [(⟨chars "59", 4, chars "NAME"⟩ : TLVField)] = chars "5904NAME"
        from by decide] at h2
      exact h2
    rw [hocc]
    rfl

theorem c2_witness :
    buildQris (chars "5904NAME") [(chars "59", chars "ABCDEFGHIJKLMNOPQRSTUVWXYZ")] =
      Except.error ⟨chars "59", 26, 25⟩ :=
  (c2_length_violation (chars "5904NAME")
    [(chars "59", chars "ABCDEFGHIJKLMNOPQRSTUVWXYZ")] (by decide)).2.2

/-- C9: `build()` enforces the per-tag maximum on fields that were never
overridden: a decoded top-level field with tag "59" (resp. "60", "61") whose
declared length already exceeds 25 (resp. 15, 5) makes `build()` with an
empty Override Set fail with the length-violation error instead of
reproducing the field. -/
theorem c9_unmodified_overlong (raw : List Char) (f : TLVField)
    (hf : f ∈ occurrences (pyStrip raw))
    (hviol : (f.tag = chars "59" ∧ 25 < f.length) ∨ (f.tag = chars "60" ∧ 15 < f.length) ∨
      (f.tag = chars "61" ∧ 5 < f.length)) :
    ∃ e, buildQris raw [] = .error e := by
  have h63 : f.tag ≠ chars "63" := by
    rcases hviol with ⟨h, _⟩ | ⟨h, _⟩ | ⟨h, _⟩ <;> (rw [h]; decide)
  have hv : maxLen f.tag < substLen [] f := by
    rw [substLen_nil]
    rcases hviol with ⟨h, hl⟩ | ⟨h, hl⟩ | ⟨h, hl⟩ <;>
      (rw [h]; first
        | (rw [show maxLen (chars "59") = 25 from by decide]; omega)
        | (rw [show maxLen (chars "60") = 15 from by decide]; omega)
        | (rw [show maxLen (chars "61") = 5 from by decide]; omega))
  obtain ⟨e, he⟩ := processFields_error_exists _ [] [] f hf h63 hv
  refine ⟨e, ?_⟩
  unfold buildQris
  rw [buildLoop_eq]
  rw [show occurrences (pyStrip raw) = parseFrom (pyStrip raw) 0 [] from rfl] at he
  rw [he]

theorem c9_witness : ∃ e, buildQris (chars "6016ABCDEFGHIJKLMNOP") [] = .error e := by
  apply c9_unmodified_overlong _ ⟨chars "60", 16, chars "ABCDEFGHIJKLMNOP"⟩ ?_ ?_
  · rw [show pyStrip (chars "6016ABCDEFGHIJKLMNOP") = chars "6016ABCDEFGHIJKLMNOP"
      from by decide]
    have h2 := occurrences_serialize [⟨chars "60", 16, chars "ABCDEFGHIJKLMNOP"⟩] (by decide)
    rw [show serializeAll [(⟨chars "60", 16, chars "ABCDEFGHIJKLMNOP"⟩ : TLVField)] =
      chars "6016ABCDEFGHIJKLMNOP" from by decide] at h2
    rw [h2]
    simp
  · right
    left
    exact ⟨rfl, by norm_num⟩


theorem find?_reverse_eq (l : List TLVField) (p : TLVField → Bool) :
    l.reverse.find? p = (l.filter p).getLast? := by
  have hor : ∀ o : Option TLVField, o.or none = o := fun o => by cases o <;> rfl
  induction l with
  | nil => rfl
  | cons a l ih =>
    rw [List.reverse_cons, List.find?_append, ih, List.filter_cons]
    by_cases hp : p a
    · rw [if_pos hp, show List.find? p [a] = some a from by rw [List.find?_cons, hp]]
      cases hl : (l.filter p).getLast? with
      | some x =>
        have hne : l.filter p ≠ [] := by
          intro hnil
          rw [hnil] at hl
          exact absurd hl (by simp)
        rw [show (some x).or (some a) = some x from rfl,
            ← List.singleton_append, List.getLast?_append_of_ne_nil _ hne, hl]
      | none =>
        rw [show (Option.none).or (some a) = some a from rfl,
            List.getLast?_eq_none_iff.mp hl]
        rfl
    · have hpf : p a = false := by revert hp; cases p a <;> simp
      rw [if_neg hp, show List.find? p [a] = none from by simp [List.find?_cons, hpf], hor]

/-- C7 counterexample: inside a composite tag's value the later occurrence
does NOT win.  With tag "26" holding "0101A0101B" (sub-tag "01" twice), the
Acquiring ID accessor returns the first occurrence's value "A"; under
last-write-wins it would return "B". -/
theorem c7_counterexample :
    acquiring_id (occurrences (chars "26100101A0101B")) = chars "A" ∧
    acquiring_id (occurrences (chars "26100101A0101B")) ≠ chars "B" := by
  have hocc : occurrences (chars "26100101A0101B") =
      [⟨chars "26", 10, chars "0101A0101B"⟩] := by
    have h2 := occurrences_serialize [⟨chars "26", 10, chars "0101A0101B"⟩] (by decide)
    rw [show serializeAll [(⟨chars "26", 10, chars "0101A0101B"⟩ : TLVField)] =
      chars "26100101A0101B" from by decide] at h2
    exact h2
  have hsub : findSub (chars "0101A0101B") (chars "01") 0 = some (chars "A") := by
    rw [findSub_first]
    have h2 := occurrences_serialize
      [⟨chars "01", 1, chars "A"⟩, ⟨chars "01", 1, chars "B"⟩] (by decide)
    unfold occurrences at h2
    rw [show serializeAll [(⟨chars "01", 1, chars "A"⟩ : TLVField), ⟨chars "01", 1, chars "B"⟩] =
      chars "0101A0101B" from by decide] at h2
    rw [h2]
    rfl
  have hA : acquiring_id (occurrences (chars "26100101A0101B")) = chars "A" := by
    rw [hocc]
    simp only [acquiring_id]
    rw [show getValue [(⟨chars "26", 10, chars "0101A0101B"⟩ : TLVField)] (chars "26") =
      chars "0101A0101B" from by decide]
    rw [if_neg (by decide), hsub]
    decide
  exact ⟨hA, by rw [hA]; decide⟩

/-- C7 (amended): at top level a repeated tag resolves last-write-wins — the
document lookup returns the last decoded occurrence of the tag (its length
and value), parsing of subsequent fields being unaffected — but inside a
composite tag's value the nested lookup returns the FIRST occurrence of the
requested sub-tag. -/
theorem c7_duplicate_tags (data t : List Char) :
    dataLookup (occurrences data) t =
      ((occurrences data).filter (fun f => f.tag == t)).getLast? ∧
    findSub data t 0 =
      ((occurrences data).find? (fun f => f.tag == t)).map TLVField.value :=
  ⟨find?_reverse_eq _ _, findSub_first data t 0⟩

/-- C6: the Acquiring ID accessor scans the value of composite tag "26"
(falling back to "51" when "26" is absent or its value empty) with the
standard parse loop for the first sub-tag "01", truncates the found value to
its first 8 characters, and returns the empty string when the container is
empty, malformed before the sub-tag, or the sub-tag is never found; with tag
"51" absent and tag "26" holding sub-tag "01" = "ID1020017612345", it
resolves to "ID102001". -/
theorem c6_acquiring_id (doc : List TLVField) :
    acquiring_id doc =
      (match ((occurrences (if (getValue doc (chars "26")).isEmpty
            then getValue doc (chars "51") else getValue doc (chars "26"))).find?
          (fun f => f.tag == chars "01")).map TLVField.value with
        | some s => s.take 8
        | none => []) ∧
    acquiring_id (occurrences (chars "00020126190115ID1020017612345")) =
      chars "ID102001" := by
  constructor
  · simp only [acquiring_id]
    rw [findSub_first]
    unfold occurrences
    cases hr : ((parseFrom (if (getValue doc (chars "26")).isEmpty = true
        then getValue doc (chars "51") else getValue doc (chars "26")) 0 []).find?
        (fun f => f.tag == chars "01")).map TLVField.value with
    | none => rfl
    | some s =>
      simp only []
      by_cases h8 : 8 ≤ s.length
      · rw [if_pos h8]
      · rw [if_neg h8, List.take_of_length_le (by omega)]
  · have hocc : occurrences (chars "00020126190115ID1020017612345") =
        [⟨chars "00", 2, chars "01"⟩, ⟨chars "26", 19, chars "0115ID1020017612345"⟩] := by
      have h2 := occurrences_serialize
        [⟨chars "00", 2, chars "01"⟩, ⟨chars "26", 19, chars "0115ID1020017612345"⟩] (by decide)
      rw [show serializeAll [(⟨chars "00", 2, chars "01"⟩ : TLVField),
        ⟨chars "26", 19, chars "0115ID1020017612345"⟩] =
        chars "00020126190115ID1020017612345" from by decide] at h2
      exact h2
    have hsub : findSub (chars "0115ID1020017612345") (chars "01") 0 =
        some (chars "ID1020017612345") := by
      rw [findSub_first]
      have h2 := occurrences_serialize [⟨chars "01", 15, chars "ID1020017612345"⟩] (by decide)
      unfold occurrences at h2
      rw [show serializeAll [(⟨chars "01", 15, chars "ID1020017612345"⟩ : TLVField)] =
        chars "0115ID1020017612345" from by decide] at h2
      rw [h2]
      rfl
    rw [hocc]
    simp only [acquiring_id]
    rw [show getValue [(⟨chars "00", 2, chars "01"⟩ : TLVField),
      ⟨chars "26", 19, chars "0115ID1020017612345"⟩] (chars "26") =
      chars "0115ID1020017612345" from by decide]
    rw [if_neg (by decide), hsub]
    decide
